import Mathlib

/-!
# cpu_bench: a timed floating-point benchmark kernel and its driver

Shallow embedding of `src/cpu_bench.c`.

Modelling conventions.

* A C `double` is a value of `Dbl`: a finite value (an exact rational; the rounding and the
  range of the binary64 format are not modelled), negative zero, the two infinities, or NaN.
  Comparison follows IEEE 754 on these classes. No arithmetic on doubles other than the
  loop's `t - t0` is evaluated: the quotient `(double)total / dur` is kept as its two
  operands.
* `uint64_t` values are natural numbers reduced modulo `2 ^ 64` after every operation.
* `now_sec()` is a stream of finite samples: the `k`-th call made by one thread returns
  `now k`. The sample taken at the kernel's start is `now 0`, the one taken after the `k`-th
  batch is `now k`.
* Loops whose exit depends on the clock carry a fuel argument bounding the number of
  batches; `none` means the fuel ran out before the loop left.
* The volatile accumulator `acc` is only written, never read for a decision or a result,
  and is left out of the state.
* The OpenMP team is a list of clocks, one per thread; `threads` is its length, and both
  parallel regions of `main` run with that team. The order of the list is the order in which
  the reduction combines the threads' private totals.
* Standard output is a list of structured lines, standard error a list of strings.
-/

namespace CpuBench

set_option maxRecDepth 16384

/-- Value of a C `double`. `fin 0` is positive zero. -/
inductive Dbl where
  | fin (q : ℚ)
  | nzero
  | pinf
  | ninf
  | nan
  deriving DecidableEq, Repr

namespace Dbl

/-- Numeric value of a finite double, negative zero included. -/
def val : Dbl → ℚ
  | fin q => q
  | _ => 0

/-- IEEE `a < b`: false as soon as one side is NaN. -/
def lt : Dbl → Dbl → Bool
  | nan, _ => false
  | _, nan => false
  | ninf, ninf => false
  | ninf, _ => true
  | _, ninf => false
  | pinf, _ => false
  | _, pinf => true
  | a, b => decide (a.val < b.val)

/-- IEEE `a <= b`: false as soon as one side is NaN. -/
def le : Dbl → Dbl → Bool
  | nan, _ => false
  | _, nan => false
  | ninf, _ => true
  | _, ninf => false
  | _, pinf => true
  | pinf, _ => false
  | a, b => decide (a.val ≤ b.val)

end Dbl

/-- The constant `UINT64_MAX + 1`. -/
def U64 : Nat := 2 ^ 64

/-- The stream of samples one thread reads from `now_sec()`. -/
abbrev Clock := Nat → ℚ

/-- Local state of `bench_kernel` at the loop test: the counter `iters`, the last sample `t`,
and the number `batches` of batches executed so far (also the index of the sample `t`). -/
structure KState where
  iters : Nat
  t : ℚ
  batches : Nat
  deriving DecidableEq, Repr

/-- The `do { ... } while ((t - t0) < duration_s)` loop of `bench_kernel`, entered with
counter `iters` after `n` batches. -/
def bench_loop (now : Clock) (duration_s : Dbl) (t0 : ℚ) : Nat → Nat → Nat → Option KState
  | 0, _, _ => none
  | fuel + 1, iters, n =>
    let iters1 := (iters + 1) % U64
    let t := now (n + 1)
    if Dbl.lt (Dbl.fin (t - t0)) duration_s then
      bench_loop now duration_s t0 fuel iters1 (n + 1)
    else
      some { iters := iters1, t := t, batches := n + 1 }

/-- Run of `bench_kernel` up to the `return`: `t0 = now_sec()`, then the loop. -/
def bench_run (now : Clock) (duration_s : Dbl) (fuel : Nat) : Option KState :=
  bench_loop now duration_s (now 0) fuel 0 0

/-- The value `iters * 256ULL` returned from the final state. -/
def kernel_result (s : KState) : Nat := s.iters * 256 % U64

/-- The function `bench_kernel`. -/
def bench_kernel (now : Clock) (duration_s : Dbl) (fuel : Nat) : Option Nat :=
  (bench_run now duration_s fuel).map kernel_result

/-- The reduction `reduction(+:total)`: the private copies of `total`, one per thread, are
added to the original `total = 0` in the order of the list, in 64-bit unsigned arithmetic. -/
def reduction (privates : List Nat) : Nat :=
  privates.foldl (fun total p => (total + p) % U64) 0

/-- One line written to standard output; the numeric fields are the values handed to
`printf`, whose `%d` and `%.3f` renderings are not modelled. The SCORE line holds the two
operands `total` and `dur` of `score = (double)total / dur`: the conversion and the binary64
division that produce the printed number are not evaluated. -/
inductive Line where
  | START (threads : Nat) (duration : Dbl)
  | THREADS (threads : Nat)
  | DURATION (duration : Dbl)
  | SCORE (total : Nat) (duration : Dbl)
  deriving DecidableEq, Repr

/-- The text `usage` writes to standard error. -/
def usage (prog : String) : String :=
  "Usage: " ++ prog ++ " [--duration <seconds>] [--verbose]\n"

/-- The argument loop of `main` over the remaining arguments `argv[i..argc)`, with the
current values of `dur` and `verbose`; `none` is the `usage(argv[0]); return 1;` branch.
The library function `atof` is a parameter. -/
def parse_args (atof : String → Dbl) : List String → Dbl → Bool → Option (Dbl × Bool)
  | [], dur, verbose => some (dur, verbose)
  | [a], dur, _ =>
    if a = "--verbose" then some (dur, true)
    else none
  | a :: v :: rest, dur, verbose =>
    if a = "--duration" then parse_args atof rest (atof v) verbose
    else if a = "--verbose" then parse_args atof (v :: rest) dur true
    else none

/-- What a run of `main` leaves behind: the exit status, the two output streams, and for
every call of `bench_kernel` (one per thread, in the order the reduction combines them) the
final state of its loop. -/
structure Outcome where
  status : Nat
  stdout : List Line
  stderr : List String
  kernels : List KState
  deriving DecidableEq, Repr

/-- The parallel region of `main`: every thread of the team calls `bench_kernel(dur)` on its
own clock; the region is left once all of them have returned. -/
def run_team : List Clock → Dbl → Nat → Option (List KState)
  | [], _, _ => some []
  | now :: rest, dur, fuel =>
    match bench_run now dur fuel with
    | none => none
    | some s =>
      match run_team rest dur fuel with
      | none => none
      | some ss => some (s :: ss)

/-- The function `main`. `clocks` holds one clock per thread of the OpenMP team (a single
one in a build without OpenMP), `argv` the argument vector, program name first. -/
def main (atof : String → Dbl) (clocks : List Clock) (argv : List String) (fuel : Nat) :
    Option Outcome :=
  match parse_args atof (argv.drop 1) (Dbl.fin 3) false with
  | none =>
    some { status := 1, stdout := [], stderr := [usage (argv.headD "")], kernels := [] }
  | some (dur, verbose) =>
    let threads := clocks.length
    let out0 := if verbose then [Line.START threads dur] else []
    match run_team clocks dur fuel with
    | none => none
    | some ks =>
      let total := reduction (ks.map kernel_result)
      some { status := 0
             stdout := out0 ++
               [Line.THREADS threads, Line.DURATION dur, Line.SCORE total dur]
             stderr := []
             kernels := ks }

/-! ### The C library's `atof` -/

namespace Libc

/-- The C locale's `isspace`. -/
def isspace (c : Char) : Bool :=
  c.toNat = 32 || (9 ≤ c.toNat && c.toNat ≤ 13)

/-- Value of a decimal digit. -/
def digit (c : Char) : Option Nat :=
  if 48 ≤ c.toNat ∧ c.toNat ≤ 57 then some (c.toNat - 48) else none

/-- Reads the longest run of decimal digits: the number read so far continued by the
digits, how many digits were read, and what follows them. -/
def digits : List Char → Nat → Nat → Nat × Nat × List Char
  | [], acc, cnt => (acc, cnt, [])
  | c :: cs, acc, cnt =>
    match digit c with
    | some d => digits cs (10 * acc + d) (cnt + 1)
    | none => (acc, cnt, c :: cs)

/-- Splits off an optional sign; `true` stands for a minus sign. -/
def sign : List Char → Bool × List Char
  | c :: cs => if c = '-' then (true, cs) else if c = '+' then (false, cs) else (false, c :: cs)
  | [] => (false, [])

/-- Whether `s` starts with the lower-case word `w`, letter case ignored. -/
def startsWithCI (w : String) (s : List Char) : Bool :=
  (s.take w.length).map Char.toLower == w.toList

/-- Value of a hexadecimal digit. -/
def hexDigit (c : Char) : Option Nat :=
  if 48 ≤ c.toNat ∧ c.toNat ≤ 57 then some (c.toNat - 48)
  else if 97 ≤ c.toNat ∧ c.toNat ≤ 102 then some (c.toNat - 87)
  else if 65 ≤ c.toNat ∧ c.toNat ≤ 70 then some (c.toNat - 55)
  else none

/-- Reads the longest run of hexadecimal digits, like `digits`. -/
def hexDigits : List Char → Nat → Nat → Nat × Nat × List Char
  | [], acc, cnt => (acc, cnt, [])
  | c :: cs, acc, cnt =>
    match hexDigit c with
    | some d => hexDigits cs (16 * acc + d) (cnt + 1)
    | none => (acc, cnt, c :: cs)

/-- The exponent part `<marker>[sign]digits` at the head of the input, the marker (`e` or
`p`) in either letter case; `0` when the part is absent or has no digit. -/
def exponent (marker : Char) : List Char → Int
  | c :: cs =>
    if c.toLower = marker then
      let sd := sign cs
      let r := digits sd.2 0 0
      if r.2.1 = 0 then 0 else if sd.1 then -(r.1 : Int) else (r.1 : Int)
    else 0
  | [] => 0

/-- Magnitude of a decimal floating constant at the head of the input: digits with an
optional fraction, one digit at least, and an optional exponent of ten. -/
def decimal (cs : List Char) : Option ℚ :=
  let ip := digits cs 0 0
  let fp := match ip.2.2 with
    | c :: r => if c = '.' then digits r ip.1 0 else (ip.1, 0, ip.2.2)
    | [] => (ip.1, 0, [])
  if ip.2.1 + fp.2.1 = 0 then none
  else some ((fp.1 : ℚ) / 10 ^ fp.2.1 * 10 ^ exponent 'e' fp.2.2)

/-- Magnitude of a hexadecimal floating constant at the head of the input: `0x`, then
hexadecimal digits with an optional fraction, one digit at least, and an optional exponent
of two. -/
def hexadecimal : List Char → Option ℚ
  | c0 :: cx :: cs =>
    if c0 = '0' ∧ cx.toLower = 'x' then
      let ip := hexDigits cs 0 0
      let fp := match ip.2.2 with
        | c :: r => if c = '.' then hexDigits r ip.1 0 else (ip.1, 0, ip.2.2)
        | [] => (ip.1, 0, [])
      if ip.2.1 + fp.2.1 = 0 then none
      else some ((fp.1 : ℚ) / 16 ^ fp.2.1 * 2 ^ exponent 'p' fp.2.2)
    else none
  | _ => none

/-- The function `atof` of the C library, that is `strtod(s, NULL)` in the C locale: leading
white space, an optional sign, then `INF`, `NAN`, a hexadecimal or a decimal constant; what
follows the longest such prefix is ignored, and when no conversion can be performed the
value is zero. The rounding and the range of binary64 are not modelled. -/
def atof (s : String) : Dbl :=
  let sd := sign (s.toList.dropWhile isspace)
  let cs := sd.2
  if startsWithCI "inf" cs then (if sd.1 then Dbl.ninf else Dbl.pinf)
  else if startsWithCI "nan" cs then Dbl.nan
  else
    match (hexadecimal cs).orElse fun _ => decimal cs with
    | none => Dbl.fin 0
    | some m =>
      if m = 0 then (if sd.1 then Dbl.nzero else Dbl.fin 0)
      else Dbl.fin (if sd.1 then -m else m)

end Libc

/-- A clock that advances by one second between two consecutive samples. -/
def tick : Clock := fun k => (k : ℚ)

/-- Argument lists made only of `--verbose` flags and `--duration <value>` pairs. -/
inductive Options : List String → Prop where
  | nil : Options []
  | verbose {rest : List String} : Options rest → Options ("--verbose" :: rest)
  | duration (v : String) {rest : List String} : Options rest →
      Options ("--duration" :: v :: rest)

/-- Whether `--verbose` is given as a flag, that is, elsewhere than as the value of a
`--duration`. -/
def verbose_given : List String → Bool
  | [] => false
  | [a] => decide (a = "--verbose")
  | a :: v :: rest =>
    if a = "--duration" then verbose_given rest
    else decide (a = "--verbose") || verbose_given (v :: rest)

/-- The duration the command line asks for: the value of the last `--duration` pair, or the
default `dur` when there is none. -/
def given_duration (atof : String → Dbl) : List String → Dbl → Dbl
  | [], dur => dur
  | [_], dur => dur
  | a :: v :: rest, dur =>
    if a = "--duration" then given_duration atof rest (atof v)
    else given_duration atof (v :: rest) dur

/-- An argument the scan rejects when it meets it as an option: one that is neither
`--verbose` nor a `--duration` with a value after it. -/
def Unrecognised (a : String) (rest : List String) : Prop :=
  a ≠ "--verbose" ∧ (a ≠ "--duration" ∨ rest = [])

/-! ### Comparisons of doubles -/

/-- A duration `<= 0` is reached by every elapsed time `>= 0`. -/
theorem Dbl.lt_eq_false_of_nonpos {d : Dbl} {e : ℚ} (hd : Dbl.le d (Dbl.fin 0) = true)
    (he : 0 ≤ e) : Dbl.lt (Dbl.fin e) d = false := by
  cases d <;> simp [Dbl.lt, Dbl.le, Dbl.val] at hd ⊢
  · linarith
  · exact he

theorem Dbl.lt_pinf (e : ℚ) : Dbl.lt (Dbl.fin e) Dbl.pinf = true := by
  simp [Dbl.lt]

/-! ### The kernel loop -/

/-- Forward run of the loop: if the test holds at the samples `n+1 .. n+j` and fails at
sample `n+j+1`, the loop leaves after `j+1` more batches. -/
theorem bench_loop_run (now : Clock) (d : Dbl) (t0 : ℚ) :
    ∀ (j fuel iters n : Nat),
      (∀ m, n < m → m < n + j + 1 → Dbl.lt (Dbl.fin (now m - t0)) d = true) →
      Dbl.lt (Dbl.fin (now (n + j + 1) - t0)) d = false →
      j + 1 ≤ fuel →
      bench_loop now d t0 fuel iters n
        = some { iters := (iters + j + 1) % U64, t := now (n + j + 1), batches := n + j + 1 } := by
  intro j
  induction j with
  | zero =>
    intro fuel iters n _ hstop hfuel
    obtain ⟨f, rfl⟩ : ∃ f, fuel = f + 1 := ⟨fuel - 1, by omega⟩
    simp only [bench_loop]
    simp at hstop
    simp [hstop]
  | succ j ih =>
    intro fuel iters n hgo hstop hfuel
    obtain ⟨f, rfl⟩ : ∃ f, fuel = f + 1 := ⟨fuel - 1, by omega⟩
    simp only [bench_loop]
    have h1 : Dbl.lt (Dbl.fin (now (n + 1) - t0)) d = true := hgo (n + 1) (by omega) (by omega)
    simp only [h1, if_true]
    have := ih f ((iters + 1) % U64) (n + 1)
      (fun m hm1 hm2 => hgo m (by omega) (by omega))
      (by rw [show n + 1 + j + 1 = n + (j + 1) + 1 by omega]; exact hstop) (by omega)
    rw [this]
    have e1 : n + 1 + j + 1 = n + (j + 1) + 1 := by omega
    have e2 : ((iters + 1) % U64 + j + 1) % U64 = (iters + (j + 1) + 1) % U64 := by
      unfold U64; omega
    rw [e1, e2]

/-- Backward reading of a finished loop: it left at the first sample, after the entry
point, at which the test fails, and it needed that many units of fuel. -/
theorem bench_loop_some (now : Clock) (d : Dbl) (t0 : ℚ) :
    ∀ (fuel iters n : Nat) (s : KState), bench_loop now d t0 fuel iters n = some s →
      ∃ j, j + 1 ≤ fuel ∧ s = { iters := (iters + j + 1) % U64, t := now (n + j + 1),
                                  batches := n + j + 1 } ∧
        Dbl.lt (Dbl.fin (now (n + j + 1) - t0)) d = false ∧
        ∀ m, n < m → m < n + j + 1 → Dbl.lt (Dbl.fin (now m - t0)) d = true := by
  intro fuel
  induction fuel with
  | zero => intro iters n s h; simp [bench_loop] at h
  | succ f ih =>
    intro iters n s h
    simp only [bench_loop] at h
    by_cases hc : Dbl.lt (Dbl.fin (now (n + 1) - t0)) d = true
    · simp only [hc, if_true] at h
      obtain ⟨j, hj, hs, hstop, hgo⟩ := ih _ _ _ h
      refine ⟨j + 1, by omega, ?_, ?_, ?_⟩
      · rw [hs]
        have e1 : n + 1 + j + 1 = n + (j + 1) + 1 := by omega
        have e2 : ((iters + 1) % U64 + j + 1) % U64 = (iters + (j + 1) + 1) % U64 := by
          unfold U64; omega
        rw [e1, e2]
      · rw [show n + (j + 1) + 1 = n + 1 + j + 1 by omega]; exact hstop
      · intro m hm1 hm2
        by_cases hm : m = n + 1
        · rw [hm]; exact hc
        · exact hgo m (by omega) (by omega)
    · simp only [hc] at h
      simp at h
      refine ⟨0, by omega, ?_, ?_, ?_⟩
      · rw [← h]
      · simpa using hc
      · intro m hm1 hm2; omega

/-- A loop whose test never fails does not leave, whatever the fuel. -/
theorem bench_loop_none (now : Clock) (d : Dbl) (t0 : ℚ)
    (hgo : ∀ m, Dbl.lt (Dbl.fin (now m - t0)) d = true) :
    ∀ (fuel iters n : Nat), bench_loop now d t0 fuel iters n = none := by
  intro fuel
  induction fuel with
  | zero => intro iters n; simp [bench_loop]
  | succ f ih =>
    intro iters n
    simp only [bench_loop, hgo (n + 1), if_true]
    exact ih _ _

/-! ### The argument scan -/

theorem parse_args_verbose (atof : String → Dbl) (l : List String) (d : Dbl) (vb : Bool) :
    parse_args atof ("--verbose" :: l) d vb = parse_args atof l d true := by
  cases l with
  | nil => simp [parse_args]
  | cons v r => simp [parse_args]

theorem parse_args_duration (atof : String → Dbl) (v : String) (l : List String) (d : Dbl)
    (vb : Bool) :
    parse_args atof ("--duration" :: v :: l) d vb = parse_args atof l (atof v) vb := by
  simp [parse_args]

theorem parse_args_unrecognised (atof : String → Dbl) {a : String} {rest : List String}
    (h : Unrecognised a rest) (d : Dbl) (vb : Bool) :
    parse_args atof (a :: rest) d vb = none := by
  obtain ⟨hv, hd⟩ := h
  cases rest with
  | nil => simp [parse_args, hv]
  | cons v r =>
    rcases hd with hd | hd
    · simp [parse_args, hv, hd]
    · simp at hd

/-- Over a prefix of well-formed options the scan carries on with the values the prefix
sets. -/
theorem parse_args_append (atof : String → Dbl) {pre : List String} (hpre : Options pre) :
    ∀ (tail : List String) (d : Dbl) (vb : Bool),
      parse_args atof (pre ++ tail) d vb
        = parse_args atof tail (given_duration atof pre d) (vb || verbose_given pre) := by
  induction hpre with
  | nil => intro tail d vb; simp [given_duration, verbose_given]
  | @verbose rest _ ih =>
    intro tail d vb
    rw [List.cons_append, parse_args_verbose, ih]
    cases rest with
    | nil => simp [given_duration, verbose_given]
    | cons v r => simp [given_duration, verbose_given]
  | @duration v rest _ ih =>
    intro tail d vb
    rw [List.cons_append, List.cons_append, parse_args_duration, ih]
    simp [given_duration, verbose_given]

theorem parse_args_options (atof : String → Dbl) {args : List String} (h : Options args)
    (d : Dbl) (vb : Bool) :
    parse_args atof args d vb
      = some (given_duration atof args d, vb || verbose_given args) := by
  have := parse_args_append atof h [] d vb
  simpa [parse_args] using this

/-! ### One kernel call -/

/-- The kernel leaves at the least sample index `k >= 1` at which the loop test fails. -/
theorem bench_run_least (now : Clock) (d : Dbl) {k fuel : Nat} (hk : 1 ≤ k)
    (hstop : Dbl.lt (Dbl.fin (now k - now 0)) d = false)
    (hgo : ∀ m, 1 ≤ m → m < k → Dbl.lt (Dbl.fin (now m - now 0)) d = true)
    (hfuel : k ≤ fuel) :
    bench_run now d fuel = some { iters := k % U64, t := now k, batches := k } := by
  obtain ⟨j, rfl⟩ : ∃ j, k = j + 1 := ⟨k - 1, by omega⟩
  have := bench_loop_run now d (now 0) j fuel 0 0
    (fun m hm1 hm2 => hgo m (by omega) (by omega)) (by simpa using hstop) (by omega)
  simpa [bench_run, Nat.add_assoc] using this

/-- What a finished kernel call tells about the clock. -/
theorem bench_run_some (now : Clock) (d : Dbl) {fuel : Nat} {s : KState}
    (h : bench_run now d fuel = some s) :
    1 ≤ s.batches ∧ s.batches ≤ fuel ∧ s.iters = s.batches % U64 ∧ s.t = now s.batches ∧
      Dbl.lt (Dbl.fin (now s.batches - now 0)) d = false ∧
      ∀ m, 1 ≤ m → m < s.batches → Dbl.lt (Dbl.fin (now m - now 0)) d = true := by
  obtain ⟨j, hj, hs, hstop, hgo⟩ := bench_loop_some now d (now 0) fuel 0 0 s h
  subst hs
  simp only [Nat.zero_add] at hstop hgo
  refine ⟨by simp, by simpa using hj, by simp, by simp, by simpa using hstop, ?_⟩
  intro m hm1 hm2
  exact hgo m (by omega) (by simpa using hm2)

/-- More fuel does not change the result of a kernel call that finished. -/
theorem bench_run_mono (now : Clock) (d : Dbl) {fuel fuel1 : Nat} {s : KState}
    (h : bench_run now d fuel = some s) (hle : fuel ≤ fuel1) :
    bench_run now d fuel1 = some s := by
  obtain ⟨h1, h2, h3, h4, h5, h6⟩ := bench_run_some now d h
  have := bench_run_least now d h1 h5 h6 (le_trans h2 hle)
  rw [this]
  cases s
  simp_all

/-- A kernel call finishes as soon as some sample fails the loop test. -/
theorem bench_run_terminates (now : Clock) (d : Dbl)
    (h : ∃ k, 1 ≤ k ∧ Dbl.lt (Dbl.fin (now k - now 0)) d = false) :
    ∃ s, ∃ fuel, bench_run now d fuel = some s := by
  classical
  let k := Nat.find h
  have hk : 1 ≤ k ∧ Dbl.lt (Dbl.fin (now k - now 0)) d = false := Nat.find_spec h
  refine ⟨_, k, bench_run_least now d hk.1 hk.2 ?_ le_rfl⟩
  intro m hm1 hm2
  have := Nat.find_min h hm2
  simp only [not_and, Bool.not_eq_false] at this
  exact this hm1

/-- With a duration `<= 0` and a clock that does not go backwards the kernel runs one batch. -/
theorem bench_run_nonpos (now : Clock) (d : Dbl) {fuel : Nat}
    (hd : Dbl.le d (Dbl.fin 0) = true) (hmono : Monotone now) (hfuel : 1 ≤ fuel) :
    bench_run now d fuel = some { iters := 1, t := now 1, batches := 1 } := by
  have hstop : Dbl.lt (Dbl.fin (now 1 - now 0)) d = false :=
    Dbl.lt_eq_false_of_nonpos hd (sub_nonneg.mpr (hmono (Nat.zero_le 1)))
  have := bench_run_least now d (le_refl 1) hstop (fun _ hm1 hm2 => by omega) hfuel
  simpa [U64] using this

/-- With an infinite duration the kernel never returns. -/
theorem bench_run_pinf (now : Clock) (fuel : Nat) : bench_run now Dbl.pinf fuel = none :=
  bench_loop_none now Dbl.pinf (now 0) (fun _ => Dbl.lt_pinf _) fuel 0 0

theorem foldl_add_mod (l : List Nat) :
    ∀ a, a < U64 → l.foldl (fun total p => (total + p) % U64) a = (a + l.sum) % U64 := by
  induction l with
  | nil => intro a ha; simp [Nat.mod_eq_of_lt ha]
  | cons x xs ih =>
    intro a ha
    rw [List.foldl_cons, ih _ (Nat.mod_lt _ (by unfold U64; norm_num)), List.sum_cons]
    unfold U64
    omega

theorem reduction_eq (l : List Nat) : reduction l = l.sum % U64 := by
  unfold reduction
  rw [foldl_add_mod l 0 (by unfold U64; norm_num)]
  simp

/-! ### The team of threads and `main` -/

theorem run_team_some_cons {c : Clock} {cs : List Clock} {d : Dbl} {fuel : Nat} {s : KState}
    {ss : List KState} (h1 : bench_run c d fuel = some s) (h2 : run_team cs d fuel = some ss) :
    run_team (c :: cs) d fuel = some (s :: ss) := by
  simp [run_team, h1, h2]

theorem run_team_cons_inv {c : Clock} {cs : List Clock} {d : Dbl} {fuel : Nat}
    {ks : List KState} (h : run_team (c :: cs) d fuel = some ks) :
    ∃ s ss, bench_run c d fuel = some s ∧ run_team cs d fuel = some ss ∧ ks = s :: ss := by
  simp only [run_team] at h
  cases h1 : bench_run c d fuel with
  | none => simp [h1] at h
  | some s =>
    cases h2 : run_team cs d fuel with
    | none => simp [h1, h2] at h
    | some ss =>
      simp [h1, h2] at h
      exact ⟨s, ss, rfl, rfl, h.symm⟩

/-- Every thread whose clock does not go backwards runs one batch of a duration `<= 0`. -/
theorem run_team_nonpos (clocks : List Clock) (d : Dbl) {fuel : Nat}
    (hd : Dbl.le d (Dbl.fin 0) = true) (hmono : ∀ c ∈ clocks, Monotone c) (hfuel : 1 ≤ fuel) :
    run_team clocks d fuel
      = some (clocks.map fun c => { iters := 1, t := c 1, batches := 1 }) := by
  induction clocks with
  | nil => simp [run_team]
  | cons c cs ih =>
    have h1 := bench_run_nonpos c d hd (hmono c (List.mem_cons_self _ _)) hfuel
    have h2 := ih (fun c1 hc1 => hmono c1 (List.mem_cons_of_mem _ hc1))
    simpa using run_team_some_cons h1 h2

/-- The parallel region is left once every clock has reached the duration; from then on
more fuel changes nothing. -/
theorem run_team_terminates (clocks : List Clock) (d : Dbl)
    (h : ∀ c ∈ clocks, ∃ k, 1 ≤ k ∧ Dbl.lt (Dbl.fin (c k - c 0)) d = false) :
    ∃ ks, ∃ fuel0, ∀ fuel, fuel0 ≤ fuel → run_team clocks d fuel = some ks := by
  induction clocks with
  | nil => exact ⟨[], 0, fun fuel _ => by simp [run_team]⟩
  | cons c cs ih =>
    obtain ⟨ss, f2, h2⟩ := ih (fun c1 hc1 => h c1 (List.mem_cons_of_mem _ hc1))
    obtain ⟨s, f1, h1⟩ := bench_run_terminates c d (h c (List.mem_cons_self _ _))
    refine ⟨s :: ss, max f1 f2, fun fuel hf => ?_⟩
    exact run_team_some_cons (bench_run_mono c d h1 (le_trans (le_max_left _ _) hf))
      (h2 fuel (le_trans (le_max_right _ _) hf))

/-- The team with an infinite duration never leaves the parallel region. -/
theorem run_team_pinf (c : Clock) (cs : List Clock) (fuel : Nat) :
    run_team (c :: cs) Dbl.pinf fuel = none := by
  simp [run_team, bench_run_pinf]

/-- Permuting the threads permutes the kernel results. -/
theorem run_team_perm {clocks clocks1 : List Clock} (hp : clocks.Perm clocks1) (d : Dbl)
    (fuel : Nat) :
    (run_team clocks d fuel = none ∧ run_team clocks1 d fuel = none) ∨
      ∃ ks ks1, run_team clocks d fuel = some ks ∧ run_team clocks1 d fuel = some ks1 ∧
        ks.Perm ks1 := by
  induction hp with
  | nil => right; exact ⟨[], [], by simp [run_team], by simp [run_team], List.Perm.nil⟩
  | @cons c l1 l2 _ ih =>
    cases hc : bench_run c d fuel with
    | none => left; simp [run_team, hc]
    | some s =>
      rcases ih with ⟨h1, h2⟩ | ⟨ks, ks1, h1, h2, hperm⟩
      · left; simp [run_team, hc, h1, h2]
      · right
        exact ⟨s :: ks, s :: ks1, run_team_some_cons hc h1, run_team_some_cons hc h2,
          hperm.cons s⟩
  | @swap c1 c2 l =>
    cases h1 : bench_run c1 d fuel with
    | none => cases h2 : bench_run c2 d fuel <;> (left; simp [run_team, h1, h2])
    | some s1 =>
      cases h2 : bench_run c2 d fuel with
      | none => left; simp [run_team, h1, h2]
      | some s2 =>
        cases h3 : run_team l d fuel with
        | none => left; simp [run_team, h1, h2, h3]
        | some ss =>
          right
          exact ⟨s2 :: s1 :: ss, s1 :: s2 :: ss, by simp [run_team, h1, h2, h3],
            by simp [run_team, h1, h2, h3], List.Perm.swap _ _ _⟩
  | @trans l1 l2 l3 _ _ ih1 ih2 =>
    rcases ih1 with ⟨h1, h2⟩ | ⟨ks, ks1, h1, h2, hperm⟩
    · rcases ih2 with ⟨h3, h4⟩ | ⟨ks2, ks3, h3, h4, _⟩
      · left; exact ⟨h1, h4⟩
      · rw [h2] at h3; simp at h3
    · rcases ih2 with ⟨h3, h4⟩ | ⟨ks2, ks3, h3, h4, hperm2⟩
      · rw [h2] at h3; simp at h3
      · right
        rw [h2] at h3
        cases h3
        exact ⟨ks, ks3, h1, h4, hperm.trans hperm2⟩

/-- The run of `main` once the arguments are accepted and the parallel region is left. -/
theorem main_accept (atof : String → Dbl) (clocks : List Clock) (argv : List String)
    (fuel : Nat) {dur : Dbl} {verbose : Bool} {ks : List KState}
    (hp : parse_args atof (argv.drop 1) (Dbl.fin 3) false = some (dur, verbose))
    (hk : run_team clocks dur fuel = some ks) :
    main atof clocks argv fuel = some
      { status := 0
        stdout := (if verbose then [Line.START clocks.length dur] else []) ++
          [Line.THREADS clocks.length, Line.DURATION dur,
           Line.SCORE (reduction (ks.map kernel_result)) dur]
        stderr := []
        kernels := ks } := by
  simp only [main, hp, hk]

/-- The run of `main` when the scan rejects an argument. -/
theorem main_reject (atof : String → Dbl) (clocks : List Clock) (argv : List String)
    (fuel : Nat) (hp : parse_args atof (argv.drop 1) (Dbl.fin 3) false = none) :
    main atof clocks argv fuel = some
      { status := 1, stdout := [], stderr := [usage (argv.headD "")], kernels := [] } := by
  simp only [main, hp]

/-- A run of `main` that does not leave the parallel region does not exit. -/
theorem main_hang (atof : String → Dbl) (clocks : List Clock) (argv : List String)
    (fuel : Nat) {dur : Dbl} {verbose : Bool}
    (hp : parse_args atof (argv.drop 1) (Dbl.fin 3) false = some (dur, verbose))
    (hk : run_team clocks dur fuel = none) :
    main atof clocks argv fuel = none := by
  simp only [main, hp, hk]

/-! ### The claims about `bench_kernel` -/

theorem tick_monotone : Monotone tick := by
  intro a b h
  simpa [tick] using h

/-- The output of `main` does not depend on the order in which the threads' results
reach the reduction. -/
theorem main_stdout_perm (atof : String → Dbl) {clocks clocks1 : List Clock}
    (hp : clocks1.Perm clocks) (argv : List String) (fuel : Nat) :
    (main atof clocks1 argv fuel).map Outcome.stdout
      = (main atof clocks argv fuel).map Outcome.stdout := by
  cases hargs : parse_args atof (argv.drop 1) (Dbl.fin 3) false with
  | none => rw [main_reject atof clocks1 argv fuel hargs, main_reject atof clocks argv fuel hargs]
  | some p =>
    obtain ⟨dur, verbose⟩ := p
    rcases run_team_perm hp dur fuel with ⟨h1, h2⟩ | ⟨ks1, ks, h1, h2, hperm⟩
    · rw [main_hang atof clocks1 argv fuel hargs h1, main_hang atof clocks argv fuel hargs h2]
    · rw [main_accept atof clocks1 argv fuel hargs h1, main_accept atof clocks argv fuel hargs h2]
      simp only [Option.map_some', hp.length_eq, reduction_eq,
        (hperm.map kernel_result).sum_eq]

/-- C3, as stated, fails. With two workers that each complete `2 ^ 55` batches, each kernel
returns `2 ^ 63` and the 64-bit total is 0, while the sum of the two results is `2 ^ 64`. -/
theorem C3_counterexample :
    ([2 ^ 63, 2 ^ 63] : List Nat).length = 2 ∧
    bench_kernel tick (Dbl.fin (2 ^ 55)) (2 ^ 55) = some (2 ^ 63) ∧
    reduction [2 ^ 63, 2 ^ 63] = 0 ∧
    ([2 ^ 63, 2 ^ 63] : List Nat).sum = 2 ^ 64 ∧
    reduction [2 ^ 63, 2 ^ 63] ≠ ([2 ^ 63, 2 ^ 63] : List Nat).sum := by
  have hrun := @bench_run_least tick (Dbl.fin (2 ^ 55)) (2 ^ 55) (2 ^ 55) (by norm_num)
    (by simp [Dbl.lt, Dbl.val, tick]; norm_num)
    (fun m _ hm => by
      have : (m : ℚ) < 2 ^ 55 := by exact_mod_cast hm
      simpa [Dbl.lt, Dbl.val, tick] using this) le_rfl
  refine ⟨rfl, ?_, by decide, by decide, by decide⟩
  unfold bench_kernel
  rw [hrun]
  simp [kernel_result, U64]

/-- C3, amended. For every number of workers (1, 2, 4 and 8 among them) and every list of
per-worker kernel results, the total computed by the reduction in `main` is the sum of the
results reduced modulo `2 ^ 64`, hence the sum itself whenever that is below `2 ^ 64`; it
does not depend on the order in which the workers' results are combined (nor does the
output of `main`), and with a kernel that returns the constant `c` to each of `n` workers it
is `n * c` modulo `2 ^ 64`. -/
theorem C3_total_is_sum_of_results (results : List Nat) :
    reduction results = results.sum % U64 ∧
    (results.sum < U64 → reduction results = results.sum) ∧
    (∀ results1 : List Nat, results1.Perm results → reduction results1 = reduction results) ∧
    (∀ n c : Nat, results = List.replicate n c → reduction results = n * c % U64) ∧
    (∀ (atof : String → Dbl) (clocks clocks1 : List Clock) (argv : List String) (fuel : Nat),
      clocks1.Perm clocks →
        (main atof clocks1 argv fuel).map Outcome.stdout
          = (main atof clocks argv fuel).map Outcome.stdout) := by
  refine ⟨reduction_eq results, fun h => ?_, fun results1 hp => ?_, fun n c h => ?_,
    fun atof clocks clocks1 argv fuel hp => main_stdout_perm atof hp argv fuel⟩
  · rw [reduction_eq, Nat.mod_eq_of_lt h]
  · rw [reduction_eq, reduction_eq, hp.sum_eq]
  · rw [reduction_eq, h, List.sum_replicate, smul_eq_mul]

/-- C3, amended, on four workers that each return 1000: the total is 4000, in whatever
order the four results are combined. -/
theorem C3_total_is_sum_of_results_witness :
    ([1000, 1000, 1000, 1000] : List Nat).sum < U64 ∧
    reduction [1000, 1000, 1000, 1000] = 4000 ∧
    (reduction [1000, 1000, 1000, 1000] = [1000, 1000, 1000, 1000].sum % U64 ∧
    (([1000, 1000, 1000, 1000] : List Nat).sum < U64 →
      reduction [1000, 1000, 1000, 1000] = [1000, 1000, 1000, 1000].sum) ∧
    (∀ results1 : List Nat, results1.Perm [1000, 1000, 1000, 1000] →
      reduction results1 = reduction [1000, 1000, 1000, 1000]) ∧
    (∀ n c : Nat, [1000, 1000, 1000, 1000] = List.replicate n c →
      reduction [1000, 1000, 1000, 1000] = n * c % U64) ∧
    (∀ (atof : String → Dbl) (clocks clocks1 : List Clock) (argv : List String) (fuel : Nat),
      clocks1.Perm clocks →
        (main atof clocks1 argv fuel).map Outcome.stdout
          = (main atof clocks argv fuel).map Outcome.stdout)) :=
  ⟨by decide, by decide, C3_total_is_sum_of_results [1000, 1000, 1000, 1000]⟩

/-! ### The claims about the driver -/

/-- A run of `--verbose` flags is a well-formed option list that leaves the duration alone. -/
theorem options_of_flags (atof : String → Dbl) :
    ∀ (post : List String), (∀ a ∈ post, a = "--verbose") →
      Options post ∧ ∀ d, given_duration atof post d = d := by
  intro post
  induction post with
  | nil => intro _; exact ⟨Options.nil, fun d => rfl⟩
  | cons a r ih =>
    intro h
    have ha : a = "--verbose" := h a (List.mem_cons_self _ _)
    obtain ⟨h1, h2⟩ := ih (fun b hb => h b (List.mem_cons_of_mem _ hb))
    subst ha
    refine ⟨Options.verbose h1, fun d => ?_⟩
    cases r with
    | nil => rfl
    | cons v r1 =>
      have := h2 d
      simpa [given_duration] using this

/-- Once the scan has yielded a duration `<= 0`, every thread runs one batch and `main`
prints its report. -/
theorem main_nonpos (atof : String → Dbl) (clocks : List Clock) (argv : List String)
    (fuel : Nat) {dur : Dbl} {verbose : Bool}
    (hp : parse_args atof (argv.drop 1) (Dbl.fin 3) false = some (dur, verbose))
    (hd : Dbl.le dur (Dbl.fin 0) = true) (hclocks : ∀ c ∈ clocks, Monotone c)
    (hfuel : 1 ≤ fuel) :
    main atof clocks argv fuel = some
      { status := 0
        stdout := (if verbose then [Line.START clocks.length dur] else []) ++
          [Line.THREADS clocks.length, Line.DURATION dur,
           Line.SCORE (reduction ((clocks.map fun c =>
             ({ iters := 1, t := c 1, batches := 1 } : KState)).map kernel_result)) dur]
        stderr := []
        kernels := clocks.map fun c => { iters := 1, t := c 1, batches := 1 } } :=
  main_accept atof clocks argv fuel hp (run_team_nonpos clocks dur hd hclocks hfuel)

/-- C5, as stated, fails. On `--duration -1` the duration is `-1 <= 0`, yet `main` runs the
kernel (one batch), prints the report (the score being `256 / -1`), writes no usage message
and exits with status 0. -/
theorem C5_counterexample :
    Libc.atof "-1" = Dbl.fin (-1) ∧ Dbl.le (Dbl.fin (-1)) (Dbl.fin 0) = true ∧
    main Libc.atof [tick] ["cpu_bench", "--duration", "-1"] 1 = some
      { status := 0
        stdout := [Line.THREADS 1, Line.DURATION (Dbl.fin (-1)),
                   Line.SCORE 256 (Dbl.fin (-1))]
        stderr := []
        kernels := [{ iters := 1, t := 1, batches := 1 }] } := by
  have hp : parse_args Libc.atof (List.drop 1 ["cpu_bench", "--duration", "-1"]) (Dbl.fin 3)
      false = some (Dbl.fin (-1), false) := by with_unfolding_all decide
  have hk : run_team [tick] (Dbl.fin (-1)) 1
      = some [{ iters := 1, t := 1, batches := 1 }] := by with_unfolding_all decide
  have htotal : reduction ([({ iters := 1, t := 1, batches := 1 } : KState)].map
      kernel_result) = 256 := by decide
  have hmain := main_accept Libc.atof [tick] ["cpu_bench", "--duration", "-1"] 1 hp hk
  rw [htotal] at hmain
  exact ⟨by with_unfolding_all decide, by with_unfolding_all decide, hmain⟩

/-- C5, amended. For every configuration with `duration_seconds <= 0` (0 and -1 among them)
that the argument scan yields, and clocks that do not go backwards, `main` does not reject
the duration: every worker calls `bench_kernel`, which runs exactly one batch, the report is
printed, nothing is written to standard error and the exit status is 0. -/
theorem C5_nonpositive_duration_is_run (atof : String → Dbl) (clocks : List Clock)
    (argv : List String) (dur : Dbl) (verbose : Bool) (fuel : Nat)
    (hp : parse_args atof (argv.drop 1) (Dbl.fin 3) false = some (dur, verbose))
    (hd : Dbl.le dur (Dbl.fin 0) = true) (hclocks : ∀ c ∈ clocks, Monotone c)
    (hfuel : 1 ≤ fuel) :
    main atof clocks argv fuel = some
      { status := 0
        stdout := (if verbose then [Line.START clocks.length dur] else []) ++
          [Line.THREADS clocks.length, Line.DURATION dur,
           Line.SCORE (reduction ((clocks.map fun c =>
             ({ iters := 1, t := c 1, batches := 1 } : KState)).map kernel_result)) dur]
        stderr := []
        kernels := clocks.map fun c => { iters := 1, t := c 1, batches := 1 } } :=
  main_nonpos atof clocks argv fuel hp hd hclocks hfuel

/-- C5, amended, on `--duration 0` with one thread: one batch is run, the report is printed
and the status is 0. -/
theorem C5_nonpositive_duration_is_run_witness :
    (parse_args Libc.atof (["cpu_bench", "--duration", "0"].drop 1) (Dbl.fin 3) false
        = some (Dbl.fin 0, false) ∧
      Dbl.le (Dbl.fin 0) (Dbl.fin 0) = true) ∧
    main Libc.atof [tick] ["cpu_bench", "--duration", "0"] 1 = some
      { status := 0
        stdout := (if false then [Line.START [tick].length (Dbl.fin 0)] else []) ++
          [Line.THREADS [tick].length, Line.DURATION (Dbl.fin 0),
           Line.SCORE (reduction (([tick].map fun c =>
             ({ iters := 1, t := c 1, batches := 1 } : KState)).map kernel_result))
             (Dbl.fin 0)]
        stderr := []
        kernels := [tick].map fun c => { iters := 1, t := c 1, batches := 1 } } :=
  ⟨⟨by with_unfolding_all decide, by with_unfolding_all decide⟩,
    C5_nonpositive_duration_is_run Libc.atof [tick] ["cpu_bench", "--duration", "0"]
      (Dbl.fin 0) false 1 (by with_unfolding_all decide) (by with_unfolding_all decide)
      (fun c hc => by
        have : c = tick := by simpa using hc
        rw [this]
        exact tick_monotone)
      (by decide)⟩

/-- C6, as stated, fails. On `--duration abc` the value parses to zero; `main` exits with
status 0, writes no usage message and prints a SCORE line (the score being `256 / 0.0`). -/
theorem C6_counterexample :
    main Libc.atof [tick] ["cpu_bench", "--duration", "abc"] 1 = some
      { status := 0
        stdout := [Line.THREADS 1, Line.DURATION (Dbl.fin 0), Line.SCORE 256 (Dbl.fin 0)]
        stderr := []
        kernels := [{ iters := 1, t := 1, batches := 1 }] } := by
  with_unfolding_all decide

/-- C6, amended. For every argument list whose last `--duration` is followed by a value on
which `atof` performs no conversion (so that it yields zero), the other arguments being
well-formed options, and clocks that do not go backwards, `main` exits with status 0, writes
nothing to standard error, and prints the DURATION line with zero and a SCORE line. -/
theorem C6_non_numeric_duration_is_run (atof : String → Dbl) (clocks : List Clock)
    (prog : String) (pre : List String) (v : String) (post : List String) (fuel : Nat)
    (hpre : Options pre) (hpost : ∀ a ∈ post, a = "--verbose") (hv : atof v = Dbl.fin 0)
    (hclocks : ∀ c ∈ clocks, Monotone c) (hfuel : 1 ≤ fuel) :
    ∃ o, main atof clocks (prog :: (pre ++ "--duration" :: v :: post)) fuel = some o ∧
      o.status = 0 ∧ o.stderr = [] ∧ Line.DURATION (Dbl.fin 0) ∈ o.stdout ∧
      ∃ total, Line.SCORE total (Dbl.fin 0) ∈ o.stdout := by
  obtain ⟨hopt, hdur⟩ := options_of_flags atof post hpost
  have hp : parse_args atof (List.drop 1 (prog :: (pre ++ "--duration" :: v :: post)))
      (Dbl.fin 3) false
        = some (Dbl.fin 0, (false || verbose_given pre) || verbose_given post) := by
    rw [List.drop_one, List.tail_cons, parse_args_append atof hpre, parse_args_duration,
      parse_args_options atof hopt, hdur, hv]
  have hmain := main_nonpos atof clocks _ fuel hp (by simp [Dbl.le, Dbl.val]) hclocks hfuel
  exact ⟨_, hmain, rfl, rfl,
    List.mem_append_right _ (List.mem_cons_of_mem _ (List.mem_cons_self _ _)),
    ⟨_, List.mem_append_right _
      (List.mem_cons_of_mem _ (List.mem_cons_of_mem _ (List.mem_singleton_self _)))⟩⟩

/-- C6, amended, on `--verbose --duration abc --verbose` with one thread. -/
theorem C6_non_numeric_duration_is_run_witness :
    (Options ["--verbose"] ∧ Libc.atof "abc" = Dbl.fin 0) ∧
    ∃ o, main Libc.atof [tick]
        ("cpu_bench" :: (["--verbose"] ++ "--duration" :: "abc" :: ["--verbose"])) 1 = some o ∧
      o.status = 0 ∧ o.stderr = [] ∧ Line.DURATION (Dbl.fin 0) ∈ o.stdout ∧
      ∃ total, Line.SCORE total (Dbl.fin 0) ∈ o.stdout :=
  ⟨⟨Options.verbose Options.nil, by decide⟩,
    C6_non_numeric_duration_is_run Libc.atof [tick] "cpu_bench" ["--verbose"] "abc"
      ["--verbose"] 1 (Options.verbose Options.nil)
      (fun a ha => by simpa using ha) (by decide)
      (fun c hc => by
        have : c = tick := by simpa using hc
        rw [this]
        exact tick_monotone)
      (by decide)⟩

/-- C7. For every argument list that contains, after a prefix of well-formed options (a
position the scan reaches as an option), a string that is neither `--verbose` nor
`--duration` followed by a value, `main` writes the usage line to standard error, returns
exit status 1, runs no kernel, and writes nothing to standard output. -/
theorem C7_unrecognised_argument_is_usage_error (atof : String → Dbl) (clocks : List Clock)
    (prog : String) (pre : List String) (a : String) (rest : List String) (fuel : Nat)
    (hpre : Options pre) (ha : Unrecognised a rest) :
    main atof clocks (prog :: (pre ++ a :: rest)) fuel = some
      { status := 1, stdout := [], stderr := [usage prog], kernels := [] } := by
  have hp : parse_args atof (List.drop 1 (prog :: (pre ++ a :: rest))) (Dbl.fin 3) false
      = none := by
    rw [List.drop_one, List.tail_cons, parse_args_append atof hpre,
      parse_args_unrecognised atof ha]
  simpa using main_reject atof clocks (prog :: (pre ++ a :: rest)) fuel hp

/-- C7 on `--verbose --threads 4` and, through the same theorem, on a `--duration` that has
no value after it. -/
theorem C7_unrecognised_argument_is_usage_error_witness :
    (Options ["--verbose"] ∧ Unrecognised "--threads" ["4"] ∧ Unrecognised "--duration" []) ∧
    main Libc.atof [tick] ("cpu_bench" :: (["--verbose"] ++ "--threads" :: ["4"])) 0 = some
      { status := 1, stdout := [], stderr := [usage "cpu_bench"], kernels := [] } ∧
    main Libc.atof [tick] ("cpu_bench" :: (["--verbose"] ++ "--duration" :: [])) 5 = some
      { status := 1, stdout := [], stderr := [usage "cpu_bench"], kernels := [] } :=
  ⟨⟨Options.verbose Options.nil, ⟨by decide, Or.inl (by decide)⟩,
      ⟨by decide, Or.inr rfl⟩⟩,
    C7_unrecognised_argument_is_usage_error Libc.atof [tick] "cpu_bench" ["--verbose"]
      "--threads" ["4"] 0 (Options.verbose Options.nil) ⟨by decide, Or.inl (by decide)⟩,
    C7_unrecognised_argument_is_usage_error Libc.atof [tick] "cpu_bench" ["--verbose"]
      "--duration" [] 5 (Options.verbose Options.nil) ⟨by decide, Or.inr rfl⟩⟩

/-- C8, as stated, fails. The argument list `--duration inf` is made of one
`--duration <value>` pair; its duration is infinite, the loop test never fails, and `main`
never exits, whatever number of batches it is given. -/
theorem C8_counterexample :
    Options ["--duration", "inf"] ∧ Libc.atof "inf" = Dbl.pinf ∧
    ∀ fuel, main Libc.atof [tick] ["cpu_bench", "--duration", "inf"] fuel = none := by
  refine ⟨Options.duration "inf" Options.nil, by decide, fun fuel => ?_⟩
  have hp : parse_args Libc.atof (List.drop 1 ["cpu_bench", "--duration", "inf"]) (Dbl.fin 3)
      false = some (Dbl.pinf, false) := by decide
  exact main_hang Libc.atof [tick] _ fuel hp (run_team_pinf tick [] fuel)

/-- C8, amended. For every argument list made only of `--verbose` flags and
`--duration <value>` pairs, and clocks on each of which the loop test `t - t0 < duration`
fails at some sample after the first (the kernels terminate), `main` exits with status 0
and its standard output is exactly the lines THREADS, DURATION, SCORE in that order,
preceded by exactly one START line if and only if `--verbose` was given, START carrying the
same thread count and duration as THREADS and DURATION. -/
theorem C8_accepted_arguments_give_report (atof : String → Dbl) (clocks : List Clock)
    (prog : String) (args : List String) (hargs : Options args)
    (hreach : ∀ c ∈ clocks, ∃ k, 1 ≤ k ∧
      Dbl.lt (Dbl.fin (c k - c 0)) (given_duration atof args (Dbl.fin 3)) = false) :
    ∃ ks fuel0, ∀ fuel, fuel0 ≤ fuel →
      main atof clocks (prog :: args) fuel = some
        { status := 0
          stdout :=
            (if verbose_given args then
              [Line.START clocks.length (given_duration atof args (Dbl.fin 3))] else []) ++
            [Line.THREADS clocks.length,
             Line.DURATION (given_duration atof args (Dbl.fin 3)),
             Line.SCORE (reduction (ks.map kernel_result))
               (given_duration atof args (Dbl.fin 3))]
          stderr := []
          kernels := ks } := by
  obtain ⟨ks, fuel0, hks⟩ := run_team_terminates clocks _ hreach
  refine ⟨ks, fuel0, fun fuel hfuel => ?_⟩
  have hp : parse_args atof (List.drop 1 (prog :: args)) (Dbl.fin 3) false
      = some (given_duration atof args (Dbl.fin 3), verbose_given args) := by
    rw [List.drop_one, List.tail_cons, parse_args_options atof hargs, Bool.false_or]
  exact main_accept atof clocks (prog :: args) fuel hp (hks fuel hfuel)

/-- C8, amended, on `--verbose --duration 2.5` with two threads whose clocks advance one
second per batch. -/
theorem C8_accepted_arguments_give_report_witness :
    (Options ["--verbose", "--duration", "2.5"] ∧
      verbose_given ["--verbose", "--duration", "2.5"] = true ∧
      given_duration Libc.atof ["--verbose", "--duration", "2.5"] (Dbl.fin 3)
        = Dbl.fin (5 / 2)) ∧
    ∃ ks fuel0, ∀ fuel, fuel0 ≤ fuel →
      main Libc.atof [tick, tick] ("cpu_bench" :: ["--verbose", "--duration", "2.5"]) fuel
        = some
        { status := 0
          stdout :=
            (if verbose_given ["--verbose", "--duration", "2.5"] then
              [Line.START [tick, tick].length
                (given_duration Libc.atof ["--verbose", "--duration", "2.5"] (Dbl.fin 3))]
              else []) ++
            [Line.THREADS [tick, tick].length,
             Line.DURATION
               (given_duration Libc.atof ["--verbose", "--duration", "2.5"] (Dbl.fin 3)),
             Line.SCORE (reduction (ks.map kernel_result))
               (given_duration Libc.atof ["--verbose", "--duration", "2.5"] (Dbl.fin 3))]
          stderr := []
          kernels := ks } :=
  ⟨⟨Options.verbose (Options.duration "2.5" Options.nil), by decide,
      by with_unfolding_all decide⟩,
    C8_accepted_arguments_give_report Libc.atof [tick, tick] "cpu_bench"
      ["--verbose", "--duration", "2.5"] (Options.verbose (Options.duration "2.5" Options.nil))
      (fun c hc => by
        have : c = tick := by simpa using hc
        rw [this]
        exact ⟨3, by decide, by with_unfolding_all decide⟩)⟩

end CpuBench
